import Mathlib

/-!
Verification of the refpool library: a shallow embedding of the pool,
the reference-counted handle (`PoolRef`), the element slot (`RefBox`)
and the lock-free stack (`SyncStack`), translated from the Rust source
(`src/pool.rs`, `src/ref_handle.rs`, `src/refbox.rs`, `src/sync_stack.rs`).

Modelling conventions:
- A pool handle (`Pool<A>`) is `Option Nat`: `none` is the null handle
  produced by `Pool::new(0)`, `some i` names the shared `PoolInner` at
  index `i` of the system state.
- A `PoolRef<A>` handle is the `Nat` address of its slot.
- Machine memory is the `slots` map of the system state: a slot is
  `live` (an initialised `RefBox` header, whose payload may still be
  uninitialised, modelled by `Option A`), `raw` (allocated, type-erased
  memory as it sits on a free-list), or `freed` (deallocated, or never
  allocated).
- The pool inner's own handle reference count (used by the source only
  to decide when the `PoolInner` itself is torn down) is not modelled:
  no claim concerns pool teardown, and slot back-references keep their
  pool alive for as long as any slot or handle exists.
-/

namespace Refpool

/-- The element slot header, from `refbox.rs`: a reference count, a
back-reference to the owning pool, and the payload. `value = none`
models an uninitialised payload (`MaybeUninit`). -/
structure RefBox (A : Type) where
  count : Nat
  pool : Option Nat
  value : Option A
deriving DecidableEq, Repr

/-- The state of one machine address: an initialised `RefBox`, raw
slot-sized memory (as held by a free-list), or deallocated memory. -/
inductive SlotState (A : Type) where
  | live (rb : RefBox A)
  | raw
  | freed
deriving DecidableEq, Repr

/-- The shared `PoolInner` from `pool.rs`: the fixed capacity and the
free-list of raw slot addresses (head of the list = top of the stack,
matching `Vec::push`/`Vec::pop` at the end). -/
structure PoolInner where
  maxSize : Nat
  freeList : List Nat
deriving DecidableEq, Repr

/-- The whole system state: all pool inners and all slots, with
allocation counters providing fresh pool indices and fresh addresses. -/
structure Sys (A : Type) where
  nextPool : Nat
  pools : Nat → PoolInner
  nextSlot : Nat
  slots : Nat → SlotState A

/-- The empty machine: no pools, no slots. -/
def Sys.init (A : Type) : Sys A :=
  ⟨0, fun _ => ⟨0, []⟩, 0, fun _ => .freed⟩

def Sys.poolAt {A : Type} (st : Sys A) (i : Nat) : PoolInner :=
  st.pools i

def Sys.slotAt {A : Type} (st : Sys A) (a : Nat) : SlotState A :=
  st.slots a

def Sys.setPool {A : Type} (st : Sys A) (i : Nat) (p : PoolInner) : Sys A :=
  { st with pools := fun j => if j = i then p else st.pools j }

def Sys.setSlot {A : Type} (st : Sys A) (a : Nat) (s : SlotState A) : Sys A :=
  { st with slots := fun b => if b = a then s else st.slots b }

/-- A fresh heap allocation of one raw slot-sized chunk
(`Box::new(MaybeUninit::uninit())` or `std::alloc::alloc`). -/
def allocFresh {A : Type} (st : Sys A) : Nat × Sys A :=
  (st.nextSlot,
    { st with
      nextSlot := st.nextSlot + 1,
      slots := fun b => if b = st.nextSlot then .raw else st.slots b })

/-- `Pool::get_max_size`: 0 for the null handle. -/
def Pool.getMaxSize {A : Type} (st : Sys A) (p : Option Nat) : Nat :=
  match p with
  | none => 0
  | some i => (st.poolAt i).maxSize

/-- `Pool::get_pool_size`: the free-list length, 0 for the null handle. -/
def Pool.getPoolSize {A : Type} (st : Sys A) (p : Option Nat) : Nat :=
  match p with
  | none => 0
  | some i => (st.poolAt i).freeList.length

/-- `Pool::is_full`: `get_pool_size() >= get_max_size()`, vacuously true
for the null handle (`unwrap_or(true)`). -/
def Pool.isFull {A : Type} (st : Sys A) (p : Option Nat) : Bool :=
  match p with
  | none => true
  | some i => decide ((st.poolAt i).maxSize ≤ (st.poolAt i).freeList.length)

/-- `Pool::push` (`pool.rs`): push a raw slot address onto the free-list.
The source asserts the handle is non-null before pushing. -/
def Pool.push {A : Type} (st : Sys A) (p : Option Nat) (a : Nat) : Sys A :=
  match p with
  | none => st
  | some i => st.setPool i ⟨(st.poolAt i).maxSize, a :: (st.poolAt i).freeList⟩

/-- The address part of `Pool::pop`: pop the free-list if the handle is
non-null and the free-list is non-empty, otherwise allocate fresh. -/
def Pool.popAddr {A : Type} (st : Sys A) (p : Option Nat) : Nat × Sys A :=
  match p with
  | none => allocFresh st
  | some i =>
    match (st.poolAt i).freeList with
    | [] => allocFresh st
    | a :: rest => (a, st.setPool i ⟨(st.poolAt i).maxSize, rest⟩)

/-- `init_box` (`pool.rs`): write a default (zero) count and the pool
back-reference into the raw chunk; the payload stays uninitialised. -/
def initBox {A : Type} (st : Sys A) (a : Nat) (p : Option Nat) : Sys A :=
  st.setSlot a (.live ⟨0, p, none⟩)

/-- `Pool::pop`: acquire a chunk (recycled or fresh) and run `init_box`
on it with a clone of this pool handle. -/
def Pool.pop {A : Type} (st : Sys A) (p : Option Nat) : Nat × Sys A :=
  let r := Pool.popAddr st p
  (r.1, initBox r.2 r.1 p)

/-- Writing the payload of a popped chunk
(`data_ptr(&mut handle).as_mut_ptr().write(value)` or
`PoolDefault::default_uninit`), and payload mutation through a
returned `&mut A`. -/
def writeValue {A : Type} (st : Sys A) (a : Nat) (v : A) : Sys A :=
  match st.slotAt a with
  | .live rb => st.setSlot a (.live ⟨rb.count, rb.pool, some v⟩)
  | _ => st

/-- `PoolClone::clone_uninit`: initialise the payload of slot `b` as a
clone of the source payload. -/
def cloneUninit {A : Type} (st : Sys A) (b : Nat) (src : Option A) : Sys A :=
  match st.slotAt b with
  | .live rb => st.setSlot b (.live ⟨rb.count, rb.pool, src⟩)
  | _ => st

/-- `RefBox::inc` / `Counter::inc` on the slot's reference count. -/
def incCount {A : Type} (st : Sys A) (a : Nat) : Sys A :=
  match st.slotAt a with
  | .live rb => st.setSlot a (.live ⟨rb.count + 1, rb.pool, rb.value⟩)
  | _ => st

/-- `RefBox::dec` with the returned previous value ignored
(as in `PoolRef::make_mut`). -/
def decCount {A : Type} (st : Sys A) (a : Nat) : Sys A :=
  match st.slotAt a with
  | .live rb => st.setSlot a (.live ⟨rb.count - 1, rb.pool, rb.value⟩)
  | _ => st

/-- `RefBox::is_shared`: `count > 1`. -/
def RefBox.isShared {A : Type} (rb : RefBox A) : Bool :=
  decide (1 < rb.count)

/-- `RefBox::return_to_pool` (`refbox.rs`): if the owning pool is full
(which the null handle always is), the box simply drops, deallocating
the chunk; otherwise the payload is destructed in place and the raw
address is pushed onto the free-list. -/
def RefBox.returnToPool {A : Type} (st : Sys A) (a : Nat) (rb : RefBox A) : Sys A :=
  if Pool.isFull st rb.pool then st.setSlot a .freed
  else Pool.push (st.setSlot a .raw) rb.pool a

/-- `PoolRef::new`: pop a chunk, write the value, `into_ref` (which
increments the count from 0 to 1). -/
def PoolRef.new {A : Type} (st : Sys A) (p : Option Nat) (v : A) : Nat × Sys A :=
  let r := Pool.pop st p
  (r.1, incCount (writeValue r.2 r.1 v) r.1)

/-- `PoolRef::default`: pop a chunk, initialise the payload to the
type's default value `d` via `PoolDefault::default_uninit`, `into_ref`. -/
def PoolRef.default {A : Type} (st : Sys A) (p : Option Nat) (d : A) : Nat × Sys A :=
  let r := Pool.pop st p
  (r.1, incCount (writeValue r.2 r.1 d) r.1)

/-- `impl Clone for PoolRef`: wrap the same address and increment the
slot's count. The new handle is the same address. -/
def PoolRef.clone {A : Type} (st : Sys A) (a : Nat) : Sys A :=
  incCount st a

/-- `impl Drop for PoolRef`: decrement the count; if the previous value
was not 1 nothing else happens, otherwise the slot is returned to its
pool. -/
def PoolRef.drop {A : Type} (st : Sys A) (a : Nat) : Sys A :=
  match st.slotAt a with
  | .live rb =>
    if rb.count ≠ 1 then st.setSlot a (.live ⟨rb.count - 1, rb.pool, rb.value⟩)
    else RefBox.returnToPool st a rb
  | _ => st

/-- `PoolRef::strong_count`. -/
def PoolRef.strongCount {A : Type} (st : Sys A) (a : Nat) : Nat :=
  match st.slotAt a with
  | .live rb => rb.count
  | _ => 0

/-- `PoolRef::ptr_eq`: address equality. -/
def PoolRef.ptrEq (a b : Nat) : Bool :=
  a == b

/-- `PoolRef::get_mut`: `None` if the slot is shared, otherwise the
payload; the state is untouched (the source performs no write). -/
def PoolRef.getMut {A : Type} (st : Sys A) (a : Nat) : Option A × Sys A :=
  match st.slotAt a with
  | .live rb => (if rb.isShared then none else rb.value, st)
  | _ => (none, st)

/-- `PoolRef::try_unwrap`: `Err` (modelled `none`) hands the handle back
with nothing changed; `Ok` moves the payload out of the box, which
deallocates the chunk without returning it to the pool. -/
def PoolRef.tryUnwrap {A : Type} (st : Sys A) (a : Nat) : Option A × Sys A :=
  match st.slotAt a with
  | .live rb =>
    if rb.isShared then (none, st)
    else (rb.value, st.setSlot a .freed)
  | _ => (none, st)

/-- `PoolRef::make_mut`: if the slot is shared, pop a new chunk from the
pool passed as argument, clone the payload into it, increment the new
slot's count (0 to 1), decrement the old slot's count, and rebind the
handle to the new address. Otherwise the handle is returned as is. -/
def PoolRef.makeMut {A : Type} (st : Sys A) (p : Option Nat) (a : Nat) : Nat × Sys A :=
  match st.slotAt a with
  | .live rb =>
    if rb.isShared then
      let r := Pool.pop st p
      let st2 := cloneUninit r.2 r.1 rb.value
      let st3 := incCount st2 r.1
      let st4 := decCount st3 a
      (r.1, st4)
    else (a, st)
  | _ => (a, st)

/-- `Pool::new`: a null handle for `max_size == 0`, otherwise a fresh
`PoolInner` with the given capacity and an empty free-list. -/
def Pool.new {A : Type} (st : Sys A) (maxSize : Nat) : Option Nat × Sys A :=
  if maxSize = 0 then (none, st)
  else
    (some st.nextPool,
      { st with
        nextPool := st.nextPool + 1,
        pools := fun j => if j = st.nextPool then ⟨maxSize, []⟩ else st.pools j })

/-- One iteration body of `Pool::fill`: allocate a raw chunk and push
its address. -/
def pushFresh {A : Type} (st : Sys A) (i : Nat) : Sys A :=
  let r := allocFresh st
  Pool.push r.2 (some i) r.1

/-- The `while inner.get_max_size() > inner.get_pool_size()` loop of
`Pool::fill`, with explicit fuel. -/
def Pool.fillLoop {A : Type} : Sys A → Nat → Nat → Sys A
  | st, _, 0 => st
  | st, i, n + 1 =>
    if (st.poolAt i).freeList.length < (st.poolAt i).maxSize then
      Pool.fillLoop (pushFresh st i) i n
    else st

/-- `Pool::fill`: a no-op on the null handle, otherwise the fill loop,
which terminates after at most `max_size - pool_size` pushes. -/
def Pool.fill {A : Type} (st : Sys A) (p : Option Nat) : Sys A :=
  match p with
  | none => st
  | some i => Pool.fillLoop st i ((st.poolAt i).maxSize - (st.poolAt i).freeList.length)

/-- A Rust type layout: size and alignment. -/
structure Layout where
  size : Nat
  align : Nat
deriving DecidableEq, Repr

/-- The two assertions guarding `Pool::cast` (`pool.rs`):
`size_of::<A>() == size_of::<B>()` and
`align_of::<A>() >= align_of::<B>()`. `false` means the cast panics. -/
def Pool.castAsserts (la lb : Layout) : Bool :=
  (la.size == lb.size) && decide (lb.align ≤ la.align)

/-- `Pool::cast`: `none` models the panic; on success the result shares
the same inner structure (the same pool index; the null handle yields a
fresh null handle). -/
def Pool.cast {A : Type} (_st : Sys A) (p : Option Nat) (la lb : Layout) :
    Option (Option Nat) :=
  if Pool.castAsserts la lb then some p else none

/-- The fixed capacity of the lock-free stack (`sync_stack.rs`). -/
def STACK_SIZE : Nat := 1024

/-- The fixed-capacity array-based Treiber stack of `sync_stack.rs`,
modelled sequentially: the size counter and the backing array (a total
map; only indices below `size` are meaningful). -/
structure SyncStack (A : Type) where
  size : Nat
  data : Nat → A

/-- `SyncStack::push`: if the size equals `STACK_SIZE` the value is
handed back (`Err`) and nothing is written; otherwise the value is
written at index `size` and the size is incremented. -/
def SyncStack.push {A : Type} (s : SyncStack A) (v : A) : Option A × SyncStack A :=
  if s.size = STACK_SIZE then (some v, s)
  else
    (none,
      { size := s.size + 1,
        data := fun j => if j = s.size then v else s.data j })

/-- `SyncStack::pop`: `None` if the size is zero; otherwise the element
at index `size - 1` is read and the size decremented. -/
def SyncStack.pop {A : Type} (s : SyncStack A) : Option A × SyncStack A :=
  if s.size = 0 then (none, s)
  else (some (s.data (s.size - 1)), { s with size := s.size - 1 })

/-- Iterated `PoolRef::clone` on the same slot (k aliasing handles). -/
def cloneN {A : Type} (st : Sys A) (a : Nat) : Nat → Sys A
  | 0 => st
  | k + 1 => PoolRef.clone (cloneN st a k) a

/-- Iterated `PoolRef::drop` of handles aliasing the same slot. -/
def dropN {A : Type} (st : Sys A) (a : Nat) : Nat → Sys A
  | 0 => st
  | j + 1 => PoolRef.drop (dropN st a j) a

/-- Allocate `n` handles through `PoolRef::new`, returning the handle
addresses in allocation order. -/
def allocN {A : Type} (st : Sys A) (p : Option Nat) (v : A) : Nat → List Nat × Sys A
  | 0 => ([], st)
  | n + 1 =>
    let r := PoolRef.new st p v
    let rest := allocN r.2 p v n
    (r.1 :: rest.1, rest.2)

/-- Drop a list of handles in order. -/
def dropList {A : Type} : Sys A → List Nat → Sys A
  | st, [] => st
  | st, a :: rest => dropList (PoolRef.drop st a) rest

/-- The contiguous address list `[s, s+1, ..., s+n-1]`. -/
def addrRange : Nat → Nat → List Nat
  | _, 0 => []
  | s, n + 1 => s :: addrRange (s + 1) n

/-- The free-list reachable through a pool handle (empty for the null
handle), used to state well-formedness hypotheses. -/
def Pool.freeListOf {A : Type} (st : Sys A) (p : Option Nat) : List Nat :=
  match p with
  | none => []
  | some i => (st.poolAt i).freeList

/-- The capacity invariant: every pool's free-list length is bounded by
its capacity. -/
def SizeInv {A : Type} (st : Sys A) : Prop :=
  ∀ i, (st.poolAt i).freeList.length ≤ (st.poolAt i).maxSize

/-- One public operation of the library, as a step on the system state. -/
inductive Step {A : Type} : Sys A → Sys A → Prop where
  | newPool (st : Sys A) (n : Nat) : Step st (Pool.new st n).2
  | fillPool (st : Sys A) (p : Option Nat) : Step st (Pool.fill st p)
  | construct (st : Sys A) (p : Option Nat) (v : A) : Step st (PoolRef.new st p v).2
  | constructDefault (st : Sys A) (p : Option Nat) (d : A) :
      Step st (PoolRef.default st p d).2
  | cloneRef (st : Sys A) (a : Nat) : Step st (PoolRef.clone st a)
  | dropRef (st : Sys A) (a : Nat) : Step st (PoolRef.drop st a)
  | getMutOp (st : Sys A) (a : Nat) : Step st (PoolRef.getMut st a).2
  | tryUnwrapOp (st : Sys A) (a : Nat) : Step st (PoolRef.tryUnwrap st a).2
  | makeMutOp (st : Sys A) (p : Option Nat) (a : Nat) : Step st (PoolRef.makeMut st p a).2
  | mutate (st : Sys A) (a : Nat) (v : A) : Step st (writeValue st a v)

/-- Reachability by any sequence of library operations. -/
inductive Reachable {A : Type} : Sys A → Sys A → Prop where
  | refl (st : Sys A) : Reachable st st
  | step {st1 st2 st3 : Sys A} : Reachable st1 st2 → Step st2 st3 → Reachable st1 st3

/-- A concrete one-pool, one-slot state over `Nat`, used to instantiate
the general theorems. -/
def oneSlotSys (maxSize : Nat) (fl : List Nat) (rb : RefBox Nat) : Sys Nat :=
  ⟨1, fun _ => ⟨maxSize, fl⟩, 1, fun b => if b = 0 then .live rb else .freed⟩

/-- A concrete two-pool, two-slot state over `Nat`, used to instantiate
the general theorems. -/
def twoPoolSys (p0 p1 : PoolInner) (s0 s1 : SlotState Nat) : Sys Nat :=
  ⟨2, fun i => if i = 0 then p0 else p1, 2,
   fun b => if b = 0 then s0 else if b = 1 then s1 else .freed⟩

theorem slotAt_setSlot_self {A : Type} (st : Sys A) (a : Nat) (s : SlotState A) :
    (st.setSlot a s).slotAt a = s := by
  simp [Sys.setSlot, Sys.slotAt]

theorem slotAt_setSlot_ne {A : Type} (st : Sys A) {a b : Nat} (s : SlotState A)
    (hb : b ≠ a) : (st.setSlot a s).slotAt b = st.slotAt b := by
  simp [Sys.setSlot, Sys.slotAt, hb]

theorem pools_setSlot {A : Type} (st : Sys A) (a : Nat) (s : SlotState A) :
    (st.setSlot a s).pools = st.pools := rfl

theorem poolAt_setSlot {A : Type} (st : Sys A) (a : Nat) (s : SlotState A) (i : Nat) :
    (st.setSlot a s).poolAt i = st.poolAt i := rfl

theorem nextSlot_setSlot {A : Type} (st : Sys A) (a : Nat) (s : SlotState A) :
    (st.setSlot a s).nextSlot = st.nextSlot := rfl

theorem poolAt_setPool_self {A : Type} (st : Sys A) (i : Nat) (q : PoolInner) :
    (st.setPool i q).poolAt i = q := by
  simp [Sys.setPool, Sys.poolAt]

theorem poolAt_setPool_ne {A : Type} (st : Sys A) {i j : Nat} (q : PoolInner)
    (hj : j ≠ i) : (st.setPool i q).poolAt j = st.poolAt j := by
  simp [Sys.setPool, Sys.poolAt, hj]

theorem slotAt_setPool {A : Type} (st : Sys A) (i : Nat) (q : PoolInner) (a : Nat) :
    (st.setPool i q).slotAt a = st.slotAt a := rfl

theorem nextSlot_setPool {A : Type} (st : Sys A) (i : Nat) (q : PoolInner) :
    (st.setPool i q).nextSlot = st.nextSlot := rfl

theorem pools_incCount {A : Type} (st : Sys A) (a : Nat) :
    (incCount st a).pools = st.pools := by
  unfold incCount; split <;> rfl

theorem nextSlot_incCount {A : Type} (st : Sys A) (a : Nat) :
    (incCount st a).nextSlot = st.nextSlot := by
  unfold incCount; split <;> rfl

theorem slotAt_incCount_self {A : Type} {st : Sys A} {a : Nat} {rb : RefBox A}
    (h : st.slotAt a = .live rb) :
    (incCount st a).slotAt a = .live ⟨rb.count + 1, rb.pool, rb.value⟩ := by
  simp [incCount, h, slotAt_setSlot_self]

theorem slotAt_incCount_ne {A : Type} (st : Sys A) {a b : Nat} (hb : b ≠ a) :
    (incCount st a).slotAt b = st.slotAt b := by
  unfold incCount; split
  · exact slotAt_setSlot_ne _ _ hb
  · rfl

theorem pools_decCount {A : Type} (st : Sys A) (a : Nat) :
    (decCount st a).pools = st.pools := by
  unfold decCount; split <;> rfl

theorem nextSlot_decCount {A : Type} (st : Sys A) (a : Nat) :
    (decCount st a).nextSlot = st.nextSlot := by
  unfold decCount; split <;> rfl

theorem slotAt_decCount_self {A : Type} {st : Sys A} {a : Nat} {rb : RefBox A}
    (h : st.slotAt a = .live rb) :
    (decCount st a).slotAt a = .live ⟨rb.count - 1, rb.pool, rb.value⟩ := by
  simp [decCount, h, slotAt_setSlot_self]

theorem slotAt_decCount_ne {A : Type} (st : Sys A) {a b : Nat} (hb : b ≠ a) :
    (decCount st a).slotAt b = st.slotAt b := by
  unfold decCount; split
  · exact slotAt_setSlot_ne _ _ hb
  · rfl

theorem pools_writeValue {A : Type} (st : Sys A) (a : Nat) (v : A) :
    (writeValue st a v).pools = st.pools := by
  unfold writeValue; split <;> rfl

theorem nextSlot_writeValue {A : Type} (st : Sys A) (a : Nat) (v : A) :
    (writeValue st a v).nextSlot = st.nextSlot := by
  unfold writeValue; split <;> rfl

theorem slotAt_writeValue_self {A : Type} {st : Sys A} {a : Nat} {rb : RefBox A}
    (v : A) (h : st.slotAt a = .live rb) :
    (writeValue st a v).slotAt a = .live ⟨rb.count, rb.pool, some v⟩ := by
  simp [writeValue, h, slotAt_setSlot_self]

theorem slotAt_writeValue_ne {A : Type} (st : Sys A) {a b : Nat} (v : A) (hb : b ≠ a) :
    (writeValue st a v).slotAt b = st.slotAt b := by
  unfold writeValue; split
  · exact slotAt_setSlot_ne _ _ hb
  · rfl

theorem pools_cloneUninit {A : Type} (st : Sys A) (b : Nat) (src : Option A) :
    (cloneUninit st b src).pools = st.pools := by
  unfold cloneUninit; split <;> rfl

theorem slotAt_cloneUninit_self {A : Type} {st : Sys A} {b : Nat} {rb : RefBox A}
    (src : Option A) (h : st.slotAt b = .live rb) :
    (cloneUninit st b src).slotAt b = .live ⟨rb.count, rb.pool, src⟩ := by
  simp [cloneUninit, h, slotAt_setSlot_self]

theorem slotAt_cloneUninit_ne {A : Type} (st : Sys A) {b x : Nat} (src : Option A)
    (hx : x ≠ b) : (cloneUninit st b src).slotAt x = st.slotAt x := by
  unfold cloneUninit; split
  · exact slotAt_setSlot_ne _ _ hx
  · rfl

theorem pools_initBox {A : Type} (st : Sys A) (a : Nat) (p : Option Nat) :
    (initBox st a p).pools = st.pools := rfl

theorem pools_allocFresh {A : Type} (st : Sys A) :
    (allocFresh st).2.pools = st.pools := rfl

theorem slotAt_allocFresh_ne {A : Type} (st : Sys A) {b : Nat}
    (hb : b ≠ st.nextSlot) : (allocFresh st).2.slotAt b = st.slotAt b := by
  simp [allocFresh, Sys.slotAt, hb]

theorem pop_spec {A : Type} (st : Sys A) (p : Option Nat) (a : Nat)
    (ha : a < st.nextSlot) (hp : a ∉ Pool.freeListOf st p) :
    (Pool.pop st p).1 ≠ a ∧
    (Pool.pop st p).2.slotAt (Pool.pop st p).1 = .live ⟨0, p, none⟩ ∧
    (∀ x, x ≠ (Pool.pop st p).1 → (Pool.pop st p).2.slotAt x = st.slotAt x) ∧
    (∀ j, p ≠ some j → (Pool.pop st p).2.poolAt j = st.poolAt j) ∧
    (∀ i, p = some i →
      ((st.poolAt i).freeList = [] → (Pool.pop st p).2.poolAt i = st.poolAt i) ∧
      (∀ c rest, (st.poolAt i).freeList = c :: rest →
        (Pool.pop st p).1 = c ∧
        (Pool.pop st p).2.poolAt i = ⟨(st.poolAt i).maxSize, rest⟩)) := by
  match p with
  | none =>
    refine ⟨by show st.nextSlot ≠ a; omega, ?_, ?_, fun j _ => rfl, fun i hi => by cases hi⟩
    · simp [Pool.pop, Pool.popAddr, allocFresh, initBox, Sys.setSlot, Sys.slotAt]
    · intro x hx
      have hx' : x ≠ st.nextSlot := hx
      simp [Pool.pop, Pool.popAddr, allocFresh, initBox, Sys.setSlot, Sys.slotAt, hx']
  | some i =>
    rcases hfl : (st.poolAt i).freeList with _ | ⟨c, rest⟩
    · refine ⟨?_, ?_, ?_, ?_, ?_⟩
      · simp only [Pool.pop, Pool.popAddr, hfl]
        show st.nextSlot ≠ a; omega
      · simp [Pool.pop, Pool.popAddr, hfl, allocFresh, initBox, Sys.setSlot, Sys.slotAt]
      · intro x hx
        simp only [Pool.pop, Pool.popAddr, hfl] at hx
        have hx' : x ≠ st.nextSlot := hx
        simp [Pool.pop, Pool.popAddr, hfl, allocFresh, initBox, Sys.setSlot,
          Sys.slotAt, hx']
      · intro j _
        simp only [Pool.pop, Pool.popAddr, hfl]
        rfl
      · rintro i' hi'
        injection hi' with hii
        subst hii
        refine ⟨fun _ => ?_, fun c' rest' hc => ?_⟩
        · simp only [Pool.pop, Pool.popAddr, hfl]
          rfl
        · rw [hfl] at hc
          cases hc
    · have hca : c ≠ a := by
        intro hc
        apply hp
        simp [Pool.freeListOf, hfl, hc]
      have hfl' : (st.pools i).freeList = c :: rest := hfl
      refine ⟨?_, ?_, ?_, ?_, ?_⟩
      · simp only [Pool.pop, Pool.popAddr, hfl]
        exact hca
      · simp [Pool.pop, Pool.popAddr, hfl, initBox, Sys.setSlot, Sys.setPool, Sys.slotAt]
      · intro x hx
        simp only [Pool.pop, Pool.popAddr, hfl] at hx
        simp [Pool.pop, Pool.popAddr, hfl, initBox, Sys.setSlot, Sys.setPool,
          Sys.slotAt, hx]
      · intro j hj
        have hji : j ≠ i := fun h => hj (by rw [h])
        simp [Pool.pop, Pool.popAddr, hfl, hfl', initBox, Sys.setSlot, Sys.setPool,
          Sys.poolAt, hji]
      · rintro i' hi'
        injection hi' with hii
        subst hii
        refine ⟨fun he => ?_, fun c' rest' hc => ?_⟩
        · rw [hfl] at he; cases he
        · rw [hfl] at hc
          injection hc with h1 h2
          subst h1; subst h2
          refine ⟨?_, ?_⟩
          · simp only [Pool.pop, Pool.popAddr, hfl]
          · simp [Pool.pop, Pool.popAddr, hfl, hfl', initBox, Sys.setSlot, Sys.setPool,
              Sys.poolAt]

theorem cloneN_spec {A : Type} (st : Sys A) (a : Nat) (rb : RefBox A)
    (h : st.slotAt a = .live rb) :
    ∀ k, (cloneN st a k).slotAt a = .live ⟨rb.count + k, rb.pool, rb.value⟩ ∧
      (cloneN st a k).pools = st.pools ∧
      (cloneN st a k).nextSlot = st.nextSlot ∧
      (∀ b, b ≠ a → (cloneN st a k).slotAt b = st.slotAt b) := by
  intro k
  induction k with
  | zero =>
    exact ⟨by simpa using h, rfl, rfl, fun b _ => rfl⟩
  | succ k ih =>
    obtain ⟨h1, h2, h3, h4⟩ := ih
    refine ⟨?_, ?_, ?_, ?_⟩
    · show (PoolRef.clone (cloneN st a k) a).slotAt a = _
      rw [PoolRef.clone, slotAt_incCount_self h1]
      rfl
    · show (PoolRef.clone (cloneN st a k) a).pools = _
      rw [PoolRef.clone, pools_incCount, h2]
    · show (PoolRef.clone (cloneN st a k) a).nextSlot = _
      rw [PoolRef.clone, nextSlot_incCount, h3]
    · intro b hb
      show (PoolRef.clone (cloneN st a k) a).slotAt b = _
      rw [PoolRef.clone, slotAt_incCount_ne _ hb, h4 b hb]

theorem dropN_spec {A : Type} (st : Sys A) (a : Nat) (rb : RefBox A)
    (h : st.slotAt a = .live rb) :
    ∀ j, j < rb.count →
      (dropN st a j).slotAt a = .live ⟨rb.count - j, rb.pool, rb.value⟩ ∧
      (dropN st a j).pools = st.pools ∧
      (dropN st a j).nextSlot = st.nextSlot ∧
      (∀ b, b ≠ a → (dropN st a j).slotAt b = st.slotAt b) := by
  intro j
  induction j with
  | zero =>
    exact fun _ => ⟨by simpa using h, rfl, rfl, fun b _ => rfl⟩
  | succ j ih =>
    intro hj
    obtain ⟨h1, h2, h3, h4⟩ := ih (by omega)
    have hcount : rb.count - j ≠ 1 := by omega
    have hstep : PoolRef.drop (dropN st a j) a =
        (dropN st a j).setSlot a (.live ⟨rb.count - j - 1, rb.pool, rb.value⟩) := by
      simp only [PoolRef.drop, h1]
      rw [if_pos hcount]
    refine ⟨?_, ?_, ?_, ?_⟩
    · show (PoolRef.drop (dropN st a j) a).slotAt a = _
      rw [hstep, slotAt_setSlot_self]
      rfl
    · show (PoolRef.drop (dropN st a j) a).pools = _
      rw [hstep, pools_setSlot, h2]
    · show (PoolRef.drop (dropN st a j) a).nextSlot = _
      rw [hstep, nextSlot_setSlot, h3]
    · intro b hb
      show (PoolRef.drop (dropN st a j) a).slotAt b = _
      rw [hstep, slotAt_setSlot_ne _ _ hb, h4 b hb]

theorem strongCount_returnToPool {A : Type} (st : Sys A) (a : Nat) (rb : RefBox A) :
    PoolRef.strongCount (RefBox.returnToPool st a rb) a = 0 := by
  by_cases hful : Pool.isFull st rb.pool = true
  · simp [RefBox.returnToPool, hful, PoolRef.strongCount, slotAt_setSlot_self]
  · simp only [RefBox.returnToPool, hful, if_false]
    cases hp : rb.pool with
    | none => simp [Pool.push, PoolRef.strongCount, slotAt_setSlot_self]
    | some i =>
      simp [Pool.push, PoolRef.strongCount, slotAt_setPool, slotAt_setSlot_self]

/-- C1: starting from a fresh handle (reference count 1), after `k`
clones and `j` drops of handles aliasing the same slot (`j ≤ k + 1`),
`strong_count` is `k + 1 - j`; as long as a handle remains (`j ≤ k`) no
pool is touched, and the `(k+1)`-th drop — the one that brings the
count to zero — is exactly the `return_to_pool` event. -/
theorem refcount_accounting {A : Type} (st : Sys A) (a : Nat) (rb : RefBox A)
    (h : st.slotAt a = .live rb) (h1 : rb.count = 1) (k j : Nat) (hj : j ≤ k + 1) :
    PoolRef.strongCount (dropN (cloneN st a k) a j) a = k + 1 - j ∧
    (j ≤ k → (dropN (cloneN st a k) a j).pools = st.pools) ∧
    dropN (cloneN st a k) a (k + 1) =
      RefBox.returnToPool (dropN (cloneN st a k) a k) a rb := by
  obtain ⟨hc1, hc2, hc3, hc4⟩ := cloneN_spec st a rb h k
  have hlast : (dropN (cloneN st a k) a k).slotAt a = .live rb := by
    obtain ⟨hd1, _, _, _⟩ :=
      dropN_spec (cloneN st a k) a ⟨rb.count + k, rb.pool, rb.value⟩ hc1 k
        (by show k < rb.count + k; omega)
    rw [hd1]
    simp [Nat.add_sub_cancel]
  have hpart3 : dropN (cloneN st a k) a (k + 1) =
      RefBox.returnToPool (dropN (cloneN st a k) a k) a rb := by
    show PoolRef.drop (dropN (cloneN st a k) a k) a = _
    simp only [PoolRef.drop, hlast]
    rw [if_neg (by omega)]
  refine ⟨?_, ?_, hpart3⟩
  · by_cases hjk : j ≤ k
    · obtain ⟨hd1, _, _, _⟩ :=
        dropN_spec (cloneN st a k) a ⟨rb.count + k, rb.pool, rb.value⟩ hc1 j
          (by show j < rb.count + k; omega)
      simp only [PoolRef.strongCount, hd1]
      omega
    · have hjeq : j = k + 1 := by omega
      subst hjeq
      rw [hpart3, strongCount_returnToPool]
      omega
  · intro hjk
    obtain ⟨_, hd2, _, _⟩ :=
      dropN_spec (cloneN st a k) a ⟨rb.count + k, rb.pool, rb.value⟩ hc1 j
        (by show j < rb.count + k; omega)
    rw [hd2, hc2]

/-- Witness for `refcount_accounting` with 2 clones and 1 drop. -/
theorem refcount_accounting_witness :
    (oneSlotSys 4 [] ⟨1, some 0, some 3⟩).slotAt 0 = .live ⟨1, some 0, some 3⟩ ∧
    (1 : Nat) ≤ 2 + 1 ∧
    PoolRef.strongCount (dropN (cloneN (oneSlotSys 4 [] ⟨1, some 0, some 3⟩) 0 2) 0 1) 0 =
      2 + 1 - 1 :=
  ⟨by decide, by decide,
   (refcount_accounting (oneSlotSys 4 [] ⟨1, some 0, some 3⟩) 0 ⟨1, some 0, some 3⟩
      (by decide) rfl 2 1 (by decide)).1⟩

/-- C4: the claim (and the method's own documentation) says `Pool::cast`
panics whenever the two layouts are not identical, but the code's second
assertion is `align_of::<A>() >= align_of::<B>()`: at size 8/align 8
versus size 8/align 4 the alignments differ, yet both assertions pass
and the cast returns a pool sharing the same inner structure. -/
theorem cast_layout_check :
    (Layout.mk 8 8).align ≠ (Layout.mk 8 4).align ∧
    Pool.castAsserts ⟨8, 8⟩ ⟨8, 4⟩ = true ∧
    Pool.cast (Sys.init Nat) (some 0) ⟨8, 8⟩ ⟨8, 4⟩ = some (some 0) := by
  refine ⟨by decide, by decide, ?_⟩
  simp [Pool.cast, Pool.castAsserts]

/-- C8: the fixed-capacity stack of `sync_stack.rs`, run sequentially:
a push at size `STACK_SIZE` returns `Err(value)` and writes nothing;
below capacity it succeeds, writing exactly at index `old size`, which
is below the array bound; a pop at size 0 returns `None`; otherwise pop
returns the element at `size - 1`, and in particular a pop immediately
after a successful push returns the pushed value. -/
theorem sync_stack_bounds {A : Type} (s : SyncStack A) (v : A) :
    (s.size = STACK_SIZE → SyncStack.push s v = (some v, s)) ∧
    (s.size < STACK_SIZE →
      (SyncStack.push s v).1 = none ∧
      (SyncStack.push s v).2.size = s.size + 1 ∧
      (SyncStack.push s v).2.data s.size = v ∧
      (∀ j, (SyncStack.push s v).2.data j ≠ s.data j → j = s.size ∧ j < STACK_SIZE) ∧
      (SyncStack.pop (SyncStack.push s v).2).1 = some v) ∧
    (s.size = 0 → SyncStack.pop s = (none, s)) ∧
    (0 < s.size →
      (SyncStack.pop s).1 = some (s.data (s.size - 1)) ∧
      (SyncStack.pop s).2.size = s.size - 1) := by
  refine ⟨?_, ?_, ?_, ?_⟩
  · intro h
    simp [SyncStack.push, h]
  · intro h
    have hne : ¬s.size = STACK_SIZE := Nat.ne_of_lt h
    refine ⟨?_, ?_, ?_, ?_, ?_⟩
    · simp [SyncStack.push, hne]
    · simp [SyncStack.push, hne]
    · simp [SyncStack.push, hne]
    · intro j hj
      simp only [SyncStack.push, hne, if_false] at hj
      by_cases hje : j = s.size
      · exact ⟨hje, hje ▸ h⟩
      · simp [hje] at hj
    · simp [SyncStack.push, SyncStack.pop, hne]
  · intro h
    simp [SyncStack.pop, h]
  · intro h
    have hne : ¬s.size = 0 := by omega
    simp [SyncStack.pop, hne]

/-- Witness for `sync_stack_bounds` at the empty stack of naturals. -/
theorem sync_stack_bounds_witness :
    (⟨0, fun _ => 0⟩ : SyncStack Nat).size < STACK_SIZE ∧
    (SyncStack.push (⟨0, fun _ => 0⟩ : SyncStack Nat) 7).1 = none ∧
    SyncStack.pop (⟨0, fun _ => 0⟩ : SyncStack Nat) = (none, ⟨0, fun _ => 0⟩) :=
  ⟨by decide,
   ((sync_stack_bounds ⟨0, fun _ => 0⟩ 7).2.1 (by decide)).1,
   (sync_stack_bounds ⟨0, fun _ => 0⟩ 7).2.2.1 rfl⟩

/-- C9: the concrete reuse scenario on `Pool::new(1)`: a default handle
holds payload 0; dropping it brings the pool size to 1; constructing a
new handle with payload 31337 pops the same address back out, brings
the pool size to 0, and the slot holds exactly the new payload. -/
theorem concrete_reuse_scenario :
    (Pool.new (Sys.init Nat) 1).1 = some 0 ∧
    ((PoolRef.default (Pool.new (Sys.init Nat) 1).2 (some 0) 0).2.slotAt
      (PoolRef.default (Pool.new (Sys.init Nat) 1).2 (some 0) 0).1 =
      .live ⟨1, some 0, some 0⟩) ∧
    Pool.getPoolSize
      (PoolRef.drop (PoolRef.default (Pool.new (Sys.init Nat) 1).2 (some 0) 0).2
        (PoolRef.default (Pool.new (Sys.init Nat) 1).2 (some 0) 0).1)
      (some 0) = 1 ∧
    ((PoolRef.new
        (PoolRef.drop (PoolRef.default (Pool.new (Sys.init Nat) 1).2 (some 0) 0).2
          (PoolRef.default (Pool.new (Sys.init Nat) 1).2 (some 0) 0).1)
        (some 0) 31337).1 =
      (PoolRef.default (Pool.new (Sys.init Nat) 1).2 (some 0) 0).1) ∧
    Pool.getPoolSize
      (PoolRef.new
        (PoolRef.drop (PoolRef.default (Pool.new (Sys.init Nat) 1).2 (some 0) 0).2
          (PoolRef.default (Pool.new (Sys.init Nat) 1).2 (some 0) 0).1)
        (some 0) 31337).2
      (some 0) = 0 ∧
    ((PoolRef.new
        (PoolRef.drop (PoolRef.default (Pool.new (Sys.init Nat) 1).2 (some 0) 0).2
          (PoolRef.default (Pool.new (Sys.init Nat) 1).2 (some 0) 0).1)
        (some 0) 31337).2.slotAt
      (PoolRef.new
        (PoolRef.drop (PoolRef.default (Pool.new (Sys.init Nat) 1).2 (some 0) 0).2
          (PoolRef.default (Pool.new (Sys.init Nat) 1).2 (some 0) 0).1)
        (some 0) 31337).1 =
      .live ⟨1, some 0, some 31337⟩) := by
  decide

theorem drop_last {A : Type} (st : Sys A) (a : Nat) (rb : RefBox A)
    (h : st.slotAt a = .live rb) (hc : rb.count = 1) :
    (Pool.isFull st rb.pool = false →
      PoolRef.drop st a = Pool.push (st.setSlot a .raw) rb.pool a) ∧
    (Pool.isFull st rb.pool = true → PoolRef.drop st a = st.setSlot a .freed) := by
  have hdrop : PoolRef.drop st a = RefBox.returnToPool st a rb := by
    simp only [PoolRef.drop, h]
    rw [if_neg (by omega)]
  constructor
  · intro hful
    rw [hdrop, RefBox.returnToPool, if_neg (by simp [hful])]
  · intro hful
    rw [hdrop, RefBox.returnToPool, if_pos hful]

theorem makeMut_spec {A : Type} (st : Sys A) (p : Option Nat) (a : Nat) (rb : RefBox A)
    (h : st.slotAt a = .live rb) (hsh : 1 < rb.count)
    (ha : a < st.nextSlot) (hp : a ∉ Pool.freeListOf st p) :
    (PoolRef.makeMut st p a).1 ≠ a ∧
    (PoolRef.makeMut st p a).2.slotAt (PoolRef.makeMut st p a).1 =
      .live ⟨1, p, rb.value⟩ ∧
    (PoolRef.makeMut st p a).2.slotAt a = .live ⟨rb.count - 1, rb.pool, rb.value⟩ ∧
    (∀ x, x ≠ a → x ≠ (PoolRef.makeMut st p a).1 →
      (PoolRef.makeMut st p a).2.slotAt x = st.slotAt x) ∧
    (∀ j, p ≠ some j → (PoolRef.makeMut st p a).2.poolAt j = st.poolAt j) ∧
    (∀ i, p = some i →
      ((st.poolAt i).freeList = [] →
        (PoolRef.makeMut st p a).2.poolAt i = st.poolAt i) ∧
      (∀ c rest, (st.poolAt i).freeList = c :: rest →
        (PoolRef.makeMut st p a).1 = c ∧
        (PoolRef.makeMut st p a).2.poolAt i = ⟨(st.poolAt i).maxSize, rest⟩)) := by
  obtain ⟨hbne, hbslot, hpres, hpoolne, hpoolsome⟩ := pop_spec st p a ha hp
  have hane : a ≠ (Pool.pop st p).1 := fun he => hbne he.symm
  have hshared : rb.isShared = true := by simp [RefBox.isShared, hsh]
  have hred : PoolRef.makeMut st p a =
      ((Pool.pop st p).1,
        decCount (incCount (cloneUninit (Pool.pop st p).2 (Pool.pop st p).1 rb.value)
          (Pool.pop st p).1) a) := by
    simp only [PoolRef.makeMut, h]
    rw [if_pos hshared]
  have h_a1 : (Pool.pop st p).2.slotAt a = .live rb := by
    rw [hpres a hane, h]
  have h_b2 : (cloneUninit (Pool.pop st p).2 (Pool.pop st p).1 rb.value).slotAt
      (Pool.pop st p).1 = .live ⟨0, p, rb.value⟩ :=
    slotAt_cloneUninit_self _ hbslot
  have h_a2 : (cloneUninit (Pool.pop st p).2 (Pool.pop st p).1 rb.value).slotAt a =
      .live rb := by
    rw [slotAt_cloneUninit_ne _ _ hane, h_a1]
  have h_b3 : (incCount (cloneUninit (Pool.pop st p).2 (Pool.pop st p).1 rb.value)
      (Pool.pop st p).1).slotAt (Pool.pop st p).1 = .live ⟨1, p, rb.value⟩ :=
    slotAt_incCount_self h_b2
  have h_a3 : (incCount (cloneUninit (Pool.pop st p).2 (Pool.pop st p).1 rb.value)
      (Pool.pop st p).1).slotAt a = .live rb := by
    rw [slotAt_incCount_ne _ hane, h_a2]
  have h_a4 : (decCount (incCount (cloneUninit (Pool.pop st p).2 (Pool.pop st p).1
      rb.value) (Pool.pop st p).1) a).slotAt a =
      .live ⟨rb.count - 1, rb.pool, rb.value⟩ :=
    slotAt_decCount_self h_a3
  have h_b4 : (decCount (incCount (cloneUninit (Pool.pop st p).2 (Pool.pop st p).1
      rb.value) (Pool.pop st p).1) a).slotAt (Pool.pop st p).1 =
      .live ⟨1, p, rb.value⟩ := by
    rw [slotAt_decCount_ne _ hbne, h_b3]
  have hpools4 : (decCount (incCount (cloneUninit (Pool.pop st p).2 (Pool.pop st p).1
      rb.value) (Pool.pop st p).1) a).pools = (Pool.pop st p).2.pools := by
    rw [pools_decCount, pools_incCount, pools_cloneUninit]
  have hpool4At : ∀ j, (decCount (incCount (cloneUninit (Pool.pop st p).2
      (Pool.pop st p).1 rb.value) (Pool.pop st p).1) a).poolAt j =
      (Pool.pop st p).2.poolAt j := by
    intro j
    simp only [Sys.poolAt, hpools4]
  refine ⟨?_, ?_, ?_, ?_, ?_, ?_⟩
  · rw [hred]
    exact hbne
  · rw [hred]
    exact h_b4
  · rw [hred]
    exact h_a4
  · intro x hxa hxb
    rw [hred] at hxb ⊢
    rw [slotAt_decCount_ne _ hxa, slotAt_incCount_ne _ hxb,
      slotAt_cloneUninit_ne _ _ hxb, hpres x hxb]
  · intro j hj
    rw [hred]
    rw [hpool4At j]
    exact hpoolne j hj
  · intro i hpi
    obtain ⟨he, hc⟩ := hpoolsome i hpi
    refine ⟨fun hfe => ?_, fun c rest hfl => ?_⟩
    · rw [hred, hpool4At i]
      exact he hfe
    · obtain ⟨hc1, hc2⟩ := hc c rest hfl
      refine ⟨by rw [hred]; exact hc1, ?_⟩
      rw [hred, hpool4At i]
      exact hc2

/-- C3: the null pool (`Pool::new(0)`): construction allocates nothing
and returns the null handle; its size is always 0, its capacity 0, and
it is always full; `fill` is a no-op; every acquisition through it is a
fresh heap allocation initialised exactly to the requested value,
touching no pool; `pop` through it coincides with `pop` through a pool
whose free-list is empty; the last-handle drop deallocates immediately
(no recycling, no pool touched); and clone never touches a pool or
allocates. -/
theorem null_pool_equivalence {A : Type} :
    (∀ st : Sys A, Pool.new st 0 = (none, st)) ∧
    (∀ st : Sys A, Pool.getPoolSize st none = 0 ∧ Pool.getMaxSize st none = 0 ∧
      Pool.isFull st none = true) ∧
    (∀ st : Sys A, Pool.fill st none = st) ∧
    (∀ (st : Sys A) (v : A),
      (PoolRef.new st none v).1 = st.nextSlot ∧
      (PoolRef.new st none v).2.slotAt st.nextSlot = .live ⟨1, none, some v⟩ ∧
      (PoolRef.new st none v).2.pools = st.pools ∧
      (∀ b, b ≠ st.nextSlot → (PoolRef.new st none v).2.slotAt b = st.slotAt b)) ∧
    (∀ (st : Sys A) (i : Nat), (st.poolAt i).freeList = [] →
      Pool.popAddr st (some i) = Pool.popAddr st none) ∧
    (∀ (st : Sys A) (a : Nat) (rb : RefBox A), st.slotAt a = .live rb →
      rb.count = 1 → rb.pool = none →
      PoolRef.drop st a = st.setSlot a .freed ∧
      (PoolRef.drop st a).pools = st.pools) ∧
    (∀ (st : Sys A) (a : Nat),
      (PoolRef.clone st a).pools = st.pools ∧
      (PoolRef.clone st a).nextSlot = st.nextSlot) := by
  refine ⟨fun st => rfl, fun st => ⟨rfl, rfl, rfl⟩, fun st => rfl, ?_, ?_, ?_, ?_⟩
  · intro st v
    refine ⟨rfl, ?_, ?_, ?_⟩
    · show (incCount (writeValue (initBox (allocFresh st).2 st.nextSlot none)
        st.nextSlot v) st.nextSlot).slotAt st.nextSlot = _
      simp [initBox, writeValue, incCount, allocFresh, Sys.setSlot, Sys.slotAt]
    · show (incCount (writeValue (initBox (allocFresh st).2 st.nextSlot none)
        st.nextSlot v) st.nextSlot).pools = _
      rw [pools_incCount, pools_writeValue]
      rfl
    · intro b hb
      show (incCount (writeValue (initBox (allocFresh st).2 st.nextSlot none)
        st.nextSlot v) st.nextSlot).slotAt b = _
      rw [slotAt_incCount_ne _ hb, slotAt_writeValue_ne _ _ hb, initBox,
        slotAt_setSlot_ne _ _ hb, slotAt_allocFresh_ne _ hb]
  · intro st i hfl
    simp only [Pool.popAddr, hfl]
  · intro st a rb h hc hp
    have hdrop : PoolRef.drop st a = RefBox.returnToPool st a rb := by
      simp only [PoolRef.drop, h]
      rw [if_neg (by omega)]
    have hful : Pool.isFull st rb.pool = true := by rw [hp]; rfl
    rw [hdrop, RefBox.returnToPool, if_pos hful]
    exact ⟨rfl, rfl⟩
  · intro st a
    exact ⟨pools_incCount st a, nextSlot_incCount st a⟩

/-- Witness for `null_pool_equivalence`: a fresh allocation through the
null handle and the immediate deallocation on last drop. -/
theorem null_pool_equivalence_witness :
    (oneSlotSys 0 [] ⟨1, none, some 5⟩).slotAt 0 = .live ⟨1, none, some 5⟩ ∧
    (PoolRef.new (Sys.init Nat) none 42).1 = (Sys.init Nat).nextSlot ∧
    PoolRef.drop (oneSlotSys 0 [] ⟨1, none, some 5⟩) 0 =
      (oneSlotSys 0 [] ⟨1, none, some 5⟩).setSlot 0 .freed :=
  ⟨by decide,
   ((null_pool_equivalence (A := Nat)).2.2.2.1 (Sys.init Nat) 42).1,
   ((null_pool_equivalence (A := Nat)).2.2.2.2.2.1 (oneSlotSys 0 [] ⟨1, none, some 5⟩)
      0 ⟨1, none, some 5⟩ (by decide) rfl rfl).1⟩

/-- C5: `PoolRef::get_mut` on a live handle (whose slot has an
initialised payload and at least one reference) returns `Some` exactly
when `strong_count` is 1, returns the payload itself in that case, and
leaves the whole state (payload, reference count, pool) unchanged. -/
theorem get_mut_uniqueness {A : Type} (st : Sys A) (a : Nat) (rb : RefBox A) (v : A)
    (h : st.slotAt a = .live rb) (hc : 1 ≤ rb.count) (hv : rb.value = some v) :
    ((PoolRef.getMut st a).1.isSome = true ↔ PoolRef.strongCount st a = 1) ∧
    (PoolRef.getMut st a).2 = st ∧
    (PoolRef.strongCount st a = 1 → (PoolRef.getMut st a).1 = some v) := by
  by_cases hsh : 1 < rb.count
  · have hb : rb.isShared = true := by simp [RefBox.isShared, hsh]
    refine ⟨?_, ?_, ?_⟩
    · simp only [PoolRef.getMut, PoolRef.strongCount, h, hb, if_true]
      constructor
      · intro hfalse; cases hfalse
      · intro h1; omega
    · simp [PoolRef.getMut, h]
    · intro h1
      simp only [PoolRef.strongCount, h] at h1
      omega
  · have hc1 : rb.count = 1 := by omega
    have hb : rb.isShared = false := by simp [RefBox.isShared]; omega
    refine ⟨?_, ?_, ?_⟩
    · simp [PoolRef.getMut, PoolRef.strongCount, h, hb, hv, hc1]
    · simp [PoolRef.getMut, h]
    · intro _
      simp [PoolRef.getMut, h, hb, hv]

/-- Witness for `get_mut_uniqueness` at a unique live handle. -/
theorem get_mut_uniqueness_witness :
    (oneSlotSys 4 [] ⟨1, some 0, some 7⟩).slotAt 0 = .live ⟨1, some 0, some 7⟩ ∧
    ((PoolRef.getMut (oneSlotSys 4 [] ⟨1, some 0, some 7⟩) 0).1.isSome = true ↔
      PoolRef.strongCount (oneSlotSys 4 [] ⟨1, some 0, some 7⟩) 0 = 1) ∧
    (PoolRef.getMut (oneSlotSys 4 [] ⟨1, some 0, some 7⟩) 0).1 = some 7 :=
  ⟨by decide,
   (get_mut_uniqueness (oneSlotSys 4 [] ⟨1, some 0, some 7⟩) 0 ⟨1, some 0, some 7⟩ 7
      (by decide) (by decide) (by decide)).1,
   (get_mut_uniqueness (oneSlotSys 4 [] ⟨1, some 0, some 7⟩) 0 ⟨1, some 0, some 7⟩ 7
      (by decide) (by decide) (by decide)).2.2 (by decide)⟩

/-- C7: `PoolRef::try_unwrap` on a live handle returns `Ok(payload)`
exactly when `strong_count` is 1; in that case it deallocates the slot
without pushing it onto any free-list (every pool's size is unchanged);
when the slot is shared it returns `Err` with the state untouched. -/
theorem try_unwrap_spec {A : Type} (st : Sys A) (a : Nat) (rb : RefBox A) (v : A)
    (h : st.slotAt a = .live rb) (hc : 1 ≤ rb.count) (hv : rb.value = some v) :
    ((PoolRef.tryUnwrap st a).1.isSome = true ↔ PoolRef.strongCount st a = 1) ∧
    (∀ q, Pool.getPoolSize (PoolRef.tryUnwrap st a).2 q = Pool.getPoolSize st q) ∧
    (PoolRef.strongCount st a = 1 →
      PoolRef.tryUnwrap st a = (some v, st.setSlot a .freed)) ∧
    (1 < PoolRef.strongCount st a → PoolRef.tryUnwrap st a = (none, st)) := by
  have hq : ∀ (st' : Sys A), st'.pools = st.pools →
      ∀ q, Pool.getPoolSize st' q = Pool.getPoolSize st q := by
    intro st' hpq q
    match q with
    | none => rfl
    | some i => simp [Pool.getPoolSize, Sys.poolAt, hpq]
  by_cases hsh : 1 < rb.count
  · have hb : rb.isShared = true := by simp [RefBox.isShared, hsh]
    refine ⟨?_, ?_, ?_, ?_⟩
    · simp only [PoolRef.tryUnwrap, PoolRef.strongCount, h, hb, if_true]
      constructor
      · intro hfalse; cases hfalse
      · intro h1; omega
    · apply hq
      simp [PoolRef.tryUnwrap, h, hb]
    · intro h1
      simp only [PoolRef.strongCount, h] at h1
      omega
    · intro _
      simp [PoolRef.tryUnwrap, h, hb]
  · have hc1 : rb.count = 1 := by omega
    have hb : rb.isShared = false := by simp [RefBox.isShared]; omega
    refine ⟨?_, ?_, ?_, ?_⟩
    · simp [PoolRef.tryUnwrap, PoolRef.strongCount, h, hb, hv, hc1]
    · apply hq
      simp [PoolRef.tryUnwrap, h, hb, pools_setSlot]
    · intro _
      simp [PoolRef.tryUnwrap, h, hb, hv]
    · intro h1
      simp only [PoolRef.strongCount, h] at h1
      omega


/-- Witness for `try_unwrap_spec` at a unique live handle. -/
theorem try_unwrap_spec_witness :
    (oneSlotSys 4 [] ⟨1, some 0, some 9⟩).slotAt 0 = .live ⟨1, some 0, some 9⟩ ∧
    PoolRef.tryUnwrap (oneSlotSys 4 [] ⟨1, some 0, some 9⟩) 0 =
      (some 9, (oneSlotSys 4 [] ⟨1, some 0, some 9⟩).setSlot 0 .freed) ∧
    Pool.getPoolSize (PoolRef.tryUnwrap (oneSlotSys 4 [] ⟨1, some 0, some 9⟩) 0).2
      (some 0) = Pool.getPoolSize (oneSlotSys 4 [] ⟨1, some 0, some 9⟩) (some 0) :=
  ⟨by decide,
   (try_unwrap_spec (oneSlotSys 4 [] ⟨1, some 0, some 9⟩) 0 ⟨1, some 0, some 9⟩ 9
      (by decide) (by decide) (by decide)).2.2.1 (by decide),
   (try_unwrap_spec (oneSlotSys 4 [] ⟨1, some 0, some 9⟩) 0 ⟨1, some 0, some 9⟩ 9
      (by decide) (by decide) (by decide)).2.1 (some 0)⟩

/-- C6: copy-on-write isolation. Given a unique handle `h1` on slot `a`
(payload `w`), `h2 = h1.clone()`, and a mutation to `v` through
`PoolRef::make_mut(pool, &mut h2)`: afterwards `h1` still holds `w`,
the two handles reference different addresses (`ptr_eq` is false), and
each of the two slots has reference count 1. -/
theorem make_mut_cow_isolation {A : Type} (st : Sys A) (a : Nat) (rb : RefBox A)
    (w v : A) (p : Option Nat)
    (h : st.slotAt a = .live rb) (hc : rb.count = 1) (hv : rb.value = some w)
    (ha : a < st.nextSlot) (hp : a ∉ Pool.freeListOf st p) :
    (PoolRef.makeMut (PoolRef.clone st a) p a).1 ≠ a ∧
    PoolRef.ptrEq a (PoolRef.makeMut (PoolRef.clone st a) p a).1 = false ∧
    (writeValue (PoolRef.makeMut (PoolRef.clone st a) p a).2
      (PoolRef.makeMut (PoolRef.clone st a) p a).1 v).slotAt a =
      .live ⟨1, rb.pool, some w⟩ ∧
    (writeValue (PoolRef.makeMut (PoolRef.clone st a) p a).2
      (PoolRef.makeMut (PoolRef.clone st a) p a).1 v).slotAt
      (PoolRef.makeMut (PoolRef.clone st a) p a).1 = .live ⟨1, p, some v⟩ ∧
    PoolRef.strongCount (writeValue (PoolRef.makeMut (PoolRef.clone st a) p a).2
      (PoolRef.makeMut (PoolRef.clone st a) p a).1 v) a = 1 ∧
    PoolRef.strongCount (writeValue (PoolRef.makeMut (PoolRef.clone st a) p a).2
      (PoolRef.makeMut (PoolRef.clone st a) p a).1 v)
      (PoolRef.makeMut (PoolRef.clone st a) p a).1 = 1 := by
  have hs1 : (PoolRef.clone st a).slotAt a = .live ⟨rb.count + 1, rb.pool, rb.value⟩ :=
    slotAt_incCount_self h
  have ha1 : a < (PoolRef.clone st a).nextSlot := by
    rw [PoolRef.clone, nextSlot_incCount]
    exact ha
  have hfl1 : Pool.freeListOf (PoolRef.clone st a) p = Pool.freeListOf st p := by
    cases p with
    | none => rfl
    | some i =>
      show ((PoolRef.clone st a).pools i).freeList = (st.pools i).freeList
      rw [PoolRef.clone, pools_incCount]
  have hp1 : a ∉ Pool.freeListOf (PoolRef.clone st a) p := by
    rw [hfl1]; exact hp
  obtain ⟨m1, m2, m3, m4, m5, m6⟩ :=
    makeMut_spec (PoolRef.clone st a) p a ⟨rb.count + 1, rb.pool, rb.value⟩ hs1
      (by show 1 < rb.count + 1; omega) ha1 hp1
  have hab : a ≠ (PoolRef.makeMut (PoolRef.clone st a) p a).1 := fun he => m1 he.symm
  have hsa : (writeValue (PoolRef.makeMut (PoolRef.clone st a) p a).2
      (PoolRef.makeMut (PoolRef.clone st a) p a).1 v).slotAt a =
      .live ⟨rb.count + 1 - 1, rb.pool, rb.value⟩ := by
    rw [slotAt_writeValue_ne _ _ hab]
    exact m3
  have hsb : (writeValue (PoolRef.makeMut (PoolRef.clone st a) p a).2
      (PoolRef.makeMut (PoolRef.clone st a) p a).1 v).slotAt
      (PoolRef.makeMut (PoolRef.clone st a) p a).1 = .live ⟨1, p, some v⟩ :=
    slotAt_writeValue_self v m2
  refine ⟨m1, ?_, ?_, hsb, ?_, ?_⟩
  · simp only [PoolRef.ptrEq, beq_eq_false_iff_ne]
    exact hab
  · rw [hsa]
    simp [hc, hv]
  · simp only [PoolRef.strongCount, hsa]
    omega
  · simp only [PoolRef.strongCount, hsb]

/-- Witness for `make_mut_cow_isolation` on a one-slot, one-pool state. -/
theorem make_mut_cow_isolation_witness :
    (oneSlotSys 4 [] ⟨1, some 0, some 5⟩).slotAt 0 = .live ⟨1, some 0, some 5⟩ ∧
    PoolRef.ptrEq 0
      (PoolRef.makeMut (PoolRef.clone (oneSlotSys 4 [] ⟨1, some 0, some 5⟩) 0)
        (some 0) 0).1 = false ∧
    (writeValue
      (PoolRef.makeMut (PoolRef.clone (oneSlotSys 4 [] ⟨1, some 0, some 5⟩) 0)
        (some 0) 0).2
      (PoolRef.makeMut (PoolRef.clone (oneSlotSys 4 [] ⟨1, some 0, some 5⟩) 0)
        (some 0) 0).1 9).slotAt 0 = .live ⟨1, some 0, some 5⟩ :=
  ⟨by decide,
   (make_mut_cow_isolation (oneSlotSys 4 [] ⟨1, some 0, some 5⟩) 0 ⟨1, some 0, some 5⟩
      5 9 (some 0) (by decide) rfl rfl (by decide) (by decide)).2.1,
   (make_mut_cow_isolation (oneSlotSys 4 [] ⟨1, some 0, some 5⟩) 0 ⟨1, some 0, some 5⟩
      5 9 (some 0) (by decide) rfl rfl (by decide) (by decide)).2.2.1⟩

/-- C10: `PoolRef::make_mut` acquires the replacement slot from the pool
passed as argument: the rebound handle's slot stores a back-reference to
the passed pool (`some i`), the original slot keeps its original pool
(`some q`), the original pool's free-list is untouched by the
acquisition, the replacement address comes off the passed pool's
free-list when it is non-empty, and the final drop of the rebound
handle pushes its address onto the passed pool (no other pool). -/
theorem make_mut_pool_argument {A : Type} (st : Sys A) (a : Nat) (rb : RefBox A)
    (i q : Nat) (h : st.slotAt a = .live rb) (hsh : 1 < rb.count)
    (hq : rb.pool = some q) (ha : a < st.nextSlot)
    (hp : a ∉ (st.poolAt i).freeList) :
    (PoolRef.makeMut st (some i) a).2.slotAt (PoolRef.makeMut st (some i) a).1 =
      .live ⟨1, some i, rb.value⟩ ∧
    (PoolRef.makeMut st (some i) a).2.slotAt a =
      .live ⟨rb.count - 1, some q, rb.value⟩ ∧
    (i ≠ q → (PoolRef.makeMut st (some i) a).2.poolAt q = st.poolAt q) ∧
    (∀ c rest, (st.poolAt i).freeList = c :: rest →
      (PoolRef.makeMut st (some i) a).1 = c ∧
      (PoolRef.makeMut st (some i) a).2.poolAt i = ⟨(st.poolAt i).maxSize, rest⟩) ∧
    (Pool.isFull (PoolRef.makeMut st (some i) a).2 (some i) = false →
      (PoolRef.drop (PoolRef.makeMut st (some i) a).2
        (PoolRef.makeMut st (some i) a).1).poolAt i =
        ⟨((PoolRef.makeMut st (some i) a).2.poolAt i).maxSize,
          (PoolRef.makeMut st (some i) a).1 ::
            ((PoolRef.makeMut st (some i) a).2.poolAt i).freeList⟩ ∧
      (∀ j, j ≠ i →
        (PoolRef.drop (PoolRef.makeMut st (some i) a).2
          (PoolRef.makeMut st (some i) a).1).poolAt j =
          (PoolRef.makeMut st (some i) a).2.poolAt j)) := by
  obtain ⟨m1, m2, m3, m4, m5, m6⟩ := makeMut_spec st (some i) a rb h hsh ha hp
  refine ⟨m2, ?_, ?_, ?_, ?_⟩
  · rw [m3, hq]
  · intro hiq
    exact m5 q (fun he => hiq (Option.some.inj he))
  · exact (m6 i rfl).2
  · intro hful
    have hb := drop_last (PoolRef.makeMut st (some i) a).2
      (PoolRef.makeMut st (some i) a).1 ⟨1, some i, rb.value⟩ m2 rfl
    have hdrop := hb.1 hful
    rw [hdrop]
    constructor
    · simp only [Pool.push]
      rw [poolAt_setPool_self]
      rfl
    · intro j hj
      simp only [Pool.push]
      rw [poolAt_setPool_ne _ _ hj]
      rfl

/-- Witness for `make_mut_pool_argument` with two distinct pools. -/
theorem make_mut_pool_argument_witness :
    (twoPoolSys ⟨2, []⟩ ⟨3, []⟩ (.live ⟨2, some 0, some 5⟩) .freed).slotAt 0 =
      .live ⟨2, some 0, some 5⟩ ∧
    (PoolRef.makeMut (twoPoolSys ⟨2, []⟩ ⟨3, []⟩ (.live ⟨2, some 0, some 5⟩) .freed)
      (some 1) 0).2.slotAt
      (PoolRef.makeMut (twoPoolSys ⟨2, []⟩ ⟨3, []⟩ (.live ⟨2, some 0, some 5⟩) .freed)
        (some 1) 0).1 = .live ⟨1, some 1, some 5⟩ ∧
    (PoolRef.makeMut (twoPoolSys ⟨2, []⟩ ⟨3, []⟩ (.live ⟨2, some 0, some 5⟩) .freed)
      (some 1) 0).2.poolAt 0 =
      (twoPoolSys ⟨2, []⟩ ⟨3, []⟩ (.live ⟨2, some 0, some 5⟩) .freed).poolAt 0 :=
  ⟨by decide,
   (make_mut_pool_argument
      (twoPoolSys ⟨2, []⟩ ⟨3, []⟩ (.live ⟨2, some 0, some 5⟩) .freed) 0
      ⟨2, some 0, some 5⟩ 1 0 (by decide) (by decide) rfl (by decide) (by decide)).1,
   (make_mut_pool_argument
      (twoPoolSys ⟨2, []⟩ ⟨3, []⟩ (.live ⟨2, some 0, some 5⟩) .freed) 0
      ⟨2, some 0, some 5⟩ 1 0 (by decide) (by decide) rfl (by decide) (by decide)).2.2.1
      (by decide)⟩


theorem sizeInv_of_pools_eq {A : Type} {st st' : Sys A} (hp : st'.pools = st.pools)
    (h : SizeInv st) : SizeInv st' := by
  intro i
  show (st'.pools i).freeList.length ≤ (st'.pools i).maxSize
  rw [hp]
  exact h i

theorem sizeInv_push_notFull {A : Type} {st : Sys A} {p : Option Nat} (a : Nat)
    (h : SizeInv st) (hful : Pool.isFull st p = false) : SizeInv (Pool.push st p a) := by
  cases p with
  | none => exact h
  | some i =>
    have hlt : (st.poolAt i).freeList.length < (st.poolAt i).maxSize := by
      simp only [Pool.isFull, decide_eq_false_iff_not, not_le] at hful
      exact hful
    intro j
    by_cases hj : j = i
    · subst hj
      simp only [Pool.push]
      rw [poolAt_setPool_self]
      simp only [List.length_cons]
      omega
    · simp only [Pool.push]
      rw [poolAt_setPool_ne _ _ hj]
      exact h j

theorem sizeInv_popAddr {A : Type} {st : Sys A} (p : Option Nat) (h : SizeInv st) :
    SizeInv (Pool.popAddr st p).2 := by
  cases p with
  | none => exact h
  | some i =>
    rcases hfl : (st.poolAt i).freeList with _ | ⟨c, rest⟩
    · intro j
      simp only [Pool.popAddr, hfl]
      exact h j
    · intro j
      simp only [Pool.popAddr, hfl]
      by_cases hj : j = i
      · subst hj
        rw [poolAt_setPool_self]
        have := h j
        rw [hfl] at this
        simp only [List.length_cons] at this
        show rest.length ≤ (st.poolAt j).maxSize
        omega
      · rw [poolAt_setPool_ne _ _ hj]
        exact h j

theorem sizeInv_pop {A : Type} {st : Sys A} (p : Option Nat) (h : SizeInv st) :
    SizeInv (Pool.pop st p).2 :=
  sizeInv_popAddr p h

theorem sizeInv_refNew {A : Type} {st : Sys A} (p : Option Nat) (v : A)
    (h : SizeInv st) : SizeInv (PoolRef.new st p v).2 :=
  sizeInv_of_pools_eq
    (by
      show (incCount (writeValue (Pool.pop st p).2 (Pool.pop st p).1 v)
        (Pool.pop st p).1).pools = (Pool.pop st p).2.pools
      rw [pools_incCount, pools_writeValue])
    (sizeInv_pop p h)

theorem sizeInv_drop {A : Type} {st : Sys A} (a : Nat) (h : SizeInv st) :
    SizeInv (PoolRef.drop st a) := by
  cases hs : st.slotAt a with
  | live rb =>
    simp only [PoolRef.drop, hs]
    by_cases hc : rb.count ≠ 1
    · rw [if_pos hc]
      exact h
    · rw [if_neg hc, RefBox.returnToPool]
      by_cases hful : Pool.isFull st rb.pool = true
      · rw [if_pos hful]
        exact h
      · rw [if_neg hful]
        exact sizeInv_push_notFull _ h (Bool.eq_false_iff.mpr hful)
  | raw =>
    simp only [PoolRef.drop, hs]
    exact h
  | freed =>
    simp only [PoolRef.drop, hs]
    exact h

theorem sizeInv_getMut {A : Type} {st : Sys A} (a : Nat) (h : SizeInv st) :
    SizeInv (PoolRef.getMut st a).2 := by
  cases hs : st.slotAt a with
  | live rb => simp only [PoolRef.getMut, hs]; exact h
  | raw => simp only [PoolRef.getMut, hs]; exact h
  | freed => simp only [PoolRef.getMut, hs]; exact h

theorem sizeInv_tryUnwrap {A : Type} {st : Sys A} (a : Nat) (h : SizeInv st) :
    SizeInv (PoolRef.tryUnwrap st a).2 := by
  cases hs : st.slotAt a with
  | live rb =>
    simp only [PoolRef.tryUnwrap, hs]
    by_cases hsh : rb.isShared = true
    · rw [if_pos hsh]
      exact h
    · rw [if_neg hsh]
      exact h
  | raw => simp only [PoolRef.tryUnwrap, hs]; exact h
  | freed => simp only [PoolRef.tryUnwrap, hs]; exact h

theorem sizeInv_makeMut {A : Type} {st : Sys A} (p : Option Nat) (a : Nat)
    (h : SizeInv st) : SizeInv (PoolRef.makeMut st p a).2 := by
  cases hs : st.slotAt a with
  | live rb =>
    simp only [PoolRef.makeMut, hs]
    by_cases hsh : rb.isShared = true
    · rw [if_pos hsh]
      refine sizeInv_of_pools_eq ?_ (sizeInv_pop p h)
      show (decCount (incCount (cloneUninit (Pool.pop st p).2 (Pool.pop st p).1
        rb.value) (Pool.pop st p).1) a).pools = (Pool.pop st p).2.pools
      rw [pools_decCount, pools_incCount, pools_cloneUninit]
    · rw [if_neg hsh]
      exact h
  | raw => simp only [PoolRef.makeMut, hs]; exact h
  | freed => simp only [PoolRef.makeMut, hs]; exact h

theorem sizeInv_poolNew {A : Type} {st : Sys A} (n : Nat) (h : SizeInv st) :
    SizeInv (Pool.new st n).2 := by
  by_cases hn : n = 0
  · simp only [Pool.new, if_pos hn]
    exact h
  · simp only [Pool.new, if_neg hn]
    intro j
    show (if j = st.nextPool then (⟨n, []⟩ : PoolInner) else st.pools j).freeList.length ≤
      (if j = st.nextPool then (⟨n, []⟩ : PoolInner) else st.pools j).maxSize
    by_cases hj : j = st.nextPool
    · simp [hj]
    · simp only [if_neg hj]
      exact h j

theorem sizeInv_fillLoop {A : Type} (i : Nat) :
    ∀ (n : Nat) (st : Sys A), SizeInv st → SizeInv (Pool.fillLoop st i n) := by
  intro n
  induction n with
  | zero => intro st h; exact h
  | succ n ih =>
    intro st h
    rw [Pool.fillLoop]
    by_cases hlt : (st.poolAt i).freeList.length < (st.poolAt i).maxSize
    · rw [if_pos hlt]
      have hful : Pool.isFull (allocFresh st).2 (some i) = false := by
        simp only [Pool.isFull, decide_eq_false_iff_not, not_le]
        exact hlt
      have h' : SizeInv (allocFresh st).2 := h
      exact ih _ (sizeInv_push_notFull st.nextSlot h' hful)
    · rw [if_neg hlt]
      exact h

theorem sizeInv_fill {A : Type} {st : Sys A} (p : Option Nat) (h : SizeInv st) :
    SizeInv (Pool.fill st p) := by
  cases p with
  | none => exact h
  | some i => exact sizeInv_fillLoop i _ st h

theorem step_preserves {A : Type} {st st' : Sys A} (hs : Step st st')
    (h : SizeInv st) : SizeInv st' := by
  cases hs with
  | newPool n => exact sizeInv_poolNew n h
  | fillPool p => exact sizeInv_fill p h
  | construct p v => exact sizeInv_refNew p v h
  | constructDefault p d => exact sizeInv_refNew p d h
  | cloneRef a => exact sizeInv_of_pools_eq (pools_incCount st a) h
  | dropRef a => exact sizeInv_drop a h
  | getMutOp a => exact sizeInv_getMut a h
  | tryUnwrapOp a => exact sizeInv_tryUnwrap a h
  | makeMutOp p a => exact sizeInv_makeMut p a h
  | mutate a v => exact sizeInv_of_pools_eq (pools_writeValue st a v) h

theorem reachable_sizeInv {A : Type} {st0 st : Sys A} (hr : Reachable st0 st)
    (h0 : SizeInv st0) : SizeInv st := by
  induction hr with
  | refl => exact h0
  | step _ hs ih => exact step_preserves hs ih

theorem mem_addrRange : ∀ (n s x : Nat), x ∈ addrRange s n ↔ s ≤ x ∧ x < s + n := by
  intro n
  induction n with
  | zero =>
    intro s x
    constructor
    · intro hx
      exact absurd hx (List.not_mem_nil x)
    · intro hx
      omega
  | succ n ih =>
    intro s x
    simp only [addrRange, List.mem_cons, ih (s + 1)]
    omega

theorem addrRange_nodup : ∀ (n s : Nat), (addrRange s n).Nodup := by
  intro n
  induction n with
  | zero => intro s; simp [addrRange]
  | succ n ih =>
    intro s
    simp only [addrRange, List.nodup_cons]
    refine ⟨?_, ih (s + 1)⟩
    rw [mem_addrRange]
    omega

theorem length_addrRange : ∀ (n s : Nat), (addrRange s n).length = n := by
  intro n
  induction n with
  | zero => intro s; rfl
  | succ n ih =>
    intro s
    simp only [addrRange, List.length_cons, ih (s + 1)]

theorem refNew_empty {A : Type} (st : Sys A) (p : Option Nat) (v : A)
    (hsz : Pool.getPoolSize st p = 0) :
    (PoolRef.new st p v).1 = st.nextSlot ∧
    (PoolRef.new st p v).2.pools = st.pools ∧
    (PoolRef.new st p v).2.nextSlot = st.nextSlot + 1 ∧
    (PoolRef.new st p v).2.slotAt st.nextSlot = .live ⟨1, p, some v⟩ ∧
    (∀ b, b ≠ st.nextSlot → (PoolRef.new st p v).2.slotAt b = st.slotAt b) := by
  have hpop : Pool.popAddr st p = allocFresh st := by
    cases p with
    | none => rfl
    | some i =>
      have hfl : (st.poolAt i).freeList = [] := by
        have hlen : (st.poolAt i).freeList.length = 0 := hsz
        exact List.length_eq_zero.mp hlen
      simp only [Pool.popAddr, hfl]
  have hpop2 : Pool.pop st p = (st.nextSlot, initBox (allocFresh st).2 st.nextSlot p) := by
    show ((Pool.popAddr st p).1, initBox (Pool.popAddr st p).2 (Pool.popAddr st p).1 p) = _
    rw [hpop]
    rfl
  have hnew : PoolRef.new st p v =
      (st.nextSlot, incCount (writeValue (initBox (allocFresh st).2 st.nextSlot p)
        st.nextSlot v) st.nextSlot) := by
    show ((Pool.pop st p).1,
      incCount (writeValue (Pool.pop st p).2 (Pool.pop st p).1 v) (Pool.pop st p).1) = _
    rw [hpop2]
  have e1 : (initBox (allocFresh st).2 st.nextSlot p).slotAt st.nextSlot =
      .live ⟨0, p, none⟩ := slotAt_setSlot_self _ _ _
  have e2 : (writeValue (initBox (allocFresh st).2 st.nextSlot p) st.nextSlot v).slotAt
      st.nextSlot = .live ⟨0, p, some v⟩ := slotAt_writeValue_self v e1
  have e3 : (incCount (writeValue (initBox (allocFresh st).2 st.nextSlot p)
      st.nextSlot v) st.nextSlot).slotAt st.nextSlot = .live ⟨1, p, some v⟩ :=
    slotAt_incCount_self e2
  refine ⟨?_, ?_, ?_, ?_, ?_⟩
  · rw [hnew]
  · rw [hnew]
    show (incCount (writeValue (initBox (allocFresh st).2 st.nextSlot p)
      st.nextSlot v) st.nextSlot).pools = st.pools
    rw [pools_incCount, pools_writeValue]
    rfl
  · rw [hnew]
    show (incCount (writeValue (initBox (allocFresh st).2 st.nextSlot p)
      st.nextSlot v) st.nextSlot).nextSlot = st.nextSlot + 1
    rw [nextSlot_incCount, nextSlot_writeValue]
    rfl
  · rw [hnew]
    exact e3
  · intro b hb
    rw [hnew]
    show (incCount (writeValue (initBox (allocFresh st).2 st.nextSlot p)
      st.nextSlot v) st.nextSlot).slotAt b = st.slotAt b
    rw [slotAt_incCount_ne _ hb, slotAt_writeValue_ne _ _ hb, initBox,
      slotAt_setSlot_ne _ _ hb, slotAt_allocFresh_ne _ hb]

theorem allocN_spec {A : Type} (p : Option Nat) (v : A) :
    ∀ (M : Nat) (st : Sys A), Pool.getPoolSize st p = 0 →
      (allocN st p v M).1 = addrRange st.nextSlot M ∧
      (allocN st p v M).2.pools = st.pools ∧
      (allocN st p v M).2.nextSlot = st.nextSlot + M ∧
      (∀ a, a ∈ addrRange st.nextSlot M →
        (allocN st p v M).2.slotAt a = .live ⟨1, p, some v⟩) ∧
      (∀ b, b < st.nextSlot → (allocN st p v M).2.slotAt b = st.slotAt b) := by
  intro M
  induction M with
  | zero =>
    intro st hsz
    refine ⟨rfl, rfl, rfl, fun a ha => ?_, fun b _ => rfl⟩
    simp [addrRange] at ha
  | succ M ih =>
    intro st hsz
    obtain ⟨n1, n2, n3, n4, n5⟩ := refNew_empty st p v hsz
    have hsz' : Pool.getPoolSize (PoolRef.new st p v).2 p = 0 := by
      cases p with
      | none => rfl
      | some i =>
        show (((PoolRef.new st (some i) v).2.pools) i).freeList.length = 0
        rw [n2]
        exact hsz
    obtain ⟨i1, i2, i3, i4, i5⟩ := ih (PoolRef.new st p v).2 hsz'
    refine ⟨?_, ?_, ?_, ?_, ?_⟩
    · show (PoolRef.new st p v).1 :: (allocN (PoolRef.new st p v).2 p v M).1 =
        addrRange st.nextSlot (M + 1)
      rw [n1, i1, n3]
      rfl
    · show (allocN (PoolRef.new st p v).2 p v M).2.pools = st.pools
      rw [i2, n2]
    · show (allocN (PoolRef.new st p v).2 p v M).2.nextSlot = st.nextSlot + (M + 1)
      rw [i3, n3]
      omega
    · intro a ha
      show (allocN (PoolRef.new st p v).2 p v M).2.slotAt a = _
      rw [mem_addrRange] at ha
      by_cases hae : a = st.nextSlot
      · rw [hae, i5 st.nextSlot (by rw [n3]; omega)]
        exact n4
      · apply i4
        rw [mem_addrRange, n3]
        omega
    · intro b hb
      show (allocN (PoolRef.new st p v).2 p v M).2.slotAt b = st.slotAt b
      rw [i5 b (by rw [n3]; omega), n5 b (by omega)]

theorem dropList_min {A : Type} (i N : Nat) (w : Option A) :
    ∀ (l : List Nat) (st : Sys A) (fl : List Nat),
      (∀ a ∈ l, st.slotAt a = .live ⟨1, some i, w⟩) →
      l.Nodup →
      st.poolAt i = ⟨N, fl⟩ →
      fl.length ≤ N →
      (∀ a ∈ l, a ∉ fl) →
      ((dropList st l).poolAt i).maxSize = N ∧
      ((dropList st l).poolAt i).freeList.length = min N (fl.length + l.length) := by
  intro l
  induction l with
  | nil =>
    intro st fl hlive hnd hpool hle hnin
    refine ⟨?_, ?_⟩
    · show (st.poolAt i).maxSize = N
      rw [hpool]
    · show (st.poolAt i).freeList.length = min N (fl.length + ([] : List Nat).length)
      rw [hpool]
      show fl.length = min N (fl.length + 0)
      rw [Nat.add_zero, Nat.min_eq_right hle]
  | cons a rest ih =>
    intro st fl hlive hnd hpool hle hnin
    have hnda : a ∉ rest := (List.nodup_cons.mp hnd).1
    have hndr : rest.Nodup := (List.nodup_cons.mp hnd).2
    have hs : st.slotAt a = .live ⟨1, some i, w⟩ := hlive a (List.mem_cons_self a rest)
    have hd := drop_last st a ⟨1, some i, w⟩ hs rfl
    by_cases hlt : fl.length < N
    · have hful : Pool.isFull st (some i) = false := by
        simp only [Pool.isFull, hpool, decide_eq_false_iff_not, not_le]
        exact hlt
      have hdrop := hd.1 hful
      have hpool' : (Pool.push (st.setSlot a .raw) (some i) a).poolAt i =
          ⟨N, a :: fl⟩ := by
        simp only [Pool.push]
        rw [poolAt_setPool_self]
        simp only [poolAt_setSlot, hpool]
      have hrest : ∀ b ∈ rest,
          (Pool.push (st.setSlot a .raw) (some i) a).slotAt b =
          .live ⟨1, some i, w⟩ := by
        intro b hb
        have hbne : b ≠ a := fun he => hnda (he ▸ hb)
        simp only [Pool.push]
        rw [slotAt_setPool, slotAt_setSlot_ne _ _ hbne]
        exact hlive b (List.mem_cons_of_mem a hb)
      have hnin' : ∀ b ∈ rest, b ∉ a :: fl := by
        intro b hb
        simp only [List.mem_cons, not_or]
        exact ⟨fun he => hnda (he ▸ hb), hnin b (List.mem_cons_of_mem a hb)⟩
      have hle' : (a :: fl).length ≤ N := by
        simp only [List.length_cons]
        omega
      have hres := ih (Pool.push (st.setSlot a .raw) (some i) a) (a :: fl)
        hrest hndr hpool' hle' hnin'
      have hstep : dropList st (a :: rest) =
          dropList (Pool.push (st.setSlot a .raw) (some i) a) rest := by
        show dropList (PoolRef.drop st a) rest = _
        rw [hdrop]
      rw [hstep]
      refine ⟨hres.1, ?_⟩
      rw [hres.2]
      simp only [List.length_cons]
      have harith : fl.length + 1 + rest.length = fl.length + (rest.length + 1) := by
        omega
      rw [harith]
    · have hful : Pool.isFull st (some i) = true := by
        simp only [Pool.isFull, hpool, decide_eq_true_eq]
        omega
      have hdrop := hd.2 hful
      have hpool' : (st.setSlot a .freed).poolAt i = ⟨N, fl⟩ := hpool
      have hrest : ∀ b ∈ rest,
          (st.setSlot a .freed).slotAt b = .live ⟨1, some i, w⟩ := by
        intro b hb
        have hbne : b ≠ a := fun he => hnda (he ▸ hb)
        rw [slotAt_setSlot_ne _ _ hbne]
        exact hlive b (List.mem_cons_of_mem a hb)
      have hres := ih (st.setSlot a .freed) fl hrest hndr hpool' hle
        (fun b hb => hnin b (List.mem_cons_of_mem a hb))
      have hstep : dropList st (a :: rest) = dropList (st.setSlot a .freed) rest := by
        show dropList (PoolRef.drop st a) rest = _
        rw [hdrop]
      rw [hstep]
      refine ⟨hres.1, ?_⟩
      rw [hres.2]
      have hfN : fl.length = N := by omega
      rw [hfN]
      simp only [List.length_cons]
      rw [Nat.min_eq_left (Nat.le_add_right _ _), Nat.min_eq_left (Nat.le_add_right _ _)]

/-- C2: capacity conservation. (1) Starting from any state satisfying
the size invariant, every sequence of library operations keeps
`get_pool_size() ≤ get_max_size()` for every pool handle. (2) When a
slot's reference count reaches zero on drop, its address is pushed onto
the owning pool's free-list exactly when the current size is below
capacity (size grows by one), and the chunk is deallocated immediately
otherwise (size unchanged). (3) From a fresh pool of capacity `N`,
allocating `M` handles and then dropping them all leaves
`get_pool_size() = min N M`. -/
theorem capacity_conservation {A : Type} :
    (∀ (st0 st : Sys A), SizeInv st0 → Reachable st0 st →
      ∀ p, Pool.getPoolSize st p ≤ Pool.getMaxSize st p) ∧
    (∀ (st : Sys A) (a : Nat) (rb : RefBox A) (i : Nat),
      st.slotAt a = .live rb → rb.count = 1 → rb.pool = some i →
      (Pool.getPoolSize st (some i) < Pool.getMaxSize st (some i) →
        PoolRef.drop st a = Pool.push (st.setSlot a .raw) (some i) a ∧
        Pool.getPoolSize (PoolRef.drop st a) (some i) =
          Pool.getPoolSize st (some i) + 1) ∧
      (Pool.getMaxSize st (some i) ≤ Pool.getPoolSize st (some i) →
        PoolRef.drop st a = st.setSlot a .freed ∧
        Pool.getPoolSize (PoolRef.drop st a) (some i) =
          Pool.getPoolSize st (some i))) ∧
    (∀ (st0 : Sys A) (N M : Nat) (v : A),
      Pool.getPoolSize
        (dropList (allocN (Pool.new st0 N).2 (Pool.new st0 N).1 v M).2
          (allocN (Pool.new st0 N).2 (Pool.new st0 N).1 v M).1)
        (Pool.new st0 N).1 = min N M) := by
  refine ⟨?_, ?_, ?_⟩
  · intro st0 st h0 hr p
    have hi := reachable_sizeInv hr h0
    cases p with
    | none => exact Nat.le_refl 0
    | some i => exact hi i
  · intro st a rb i h hc hq
    have hd := drop_last st a rb h hc
    constructor
    · intro hlt
      have hful : Pool.isFull st rb.pool = false := by
        rw [hq]
        simp only [Pool.isFull, decide_eq_false_iff_not, not_le]
        exact hlt
      have hdr := hd.1 hful
      rw [hq] at hdr
      refine ⟨hdr, ?_⟩
      rw [hdr]
      show ((Pool.push (st.setSlot a .raw) (some i) a).poolAt i).freeList.length = _
      simp only [Pool.push]
      rw [poolAt_setPool_self]
      simp only [poolAt_setSlot, List.length_cons]
      rfl
    · intro hge
      have hful : Pool.isFull st rb.pool = true := by
        rw [hq]
        simp only [Pool.isFull, decide_eq_true_eq]
        exact hge
      have hdr := hd.2 hful
      exact ⟨hdr, by rw [hdr]; rfl⟩
  · intro st0 N M v
    by_cases hN : N = 0
    · subst hN
      show Pool.getPoolSize _ (Pool.new st0 0).1 = min 0 M
      rw [Nat.zero_min]
      rfl
    · have hp1 : (Pool.new st0 N).1 = some st0.nextPool := by
        simp only [Pool.new, if_neg hN]
      have hpool1 : (Pool.new st0 N).2.poolAt st0.nextPool = ⟨N, []⟩ := by
        simp only [Pool.new, if_neg hN]
        show (if st0.nextPool = st0.nextPool then (⟨N, []⟩ : PoolInner)
          else st0.pools st0.nextPool) = _
        rw [if_pos rfl]
      have hsz1 : Pool.getPoolSize (Pool.new st0 N).2 (Pool.new st0 N).1 = 0 := by
        rw [hp1]
        show ((Pool.new st0 N).2.poolAt st0.nextPool).freeList.length = 0
        rw [hpool1]
        rfl
      obtain ⟨a1, a2, a3, a4, a5⟩ :=
        allocN_spec (Pool.new st0 N).1 v M (Pool.new st0 N).2 hsz1
      have hlive : ∀ b ∈ (allocN (Pool.new st0 N).2 (Pool.new st0 N).1 v M).1,
          (allocN (Pool.new st0 N).2 (Pool.new st0 N).1 v M).2.slotAt b =
          .live ⟨1, some st0.nextPool, some v⟩ := by
        intro b hb
        rw [a1] at hb
        rw [← hp1]
        exact a4 b hb
      have hnd : (allocN (Pool.new st0 N).2 (Pool.new st0 N).1 v M).1.Nodup := by
        rw [a1]
        exact addrRange_nodup M _
      have hpoolA : (allocN (Pool.new st0 N).2 (Pool.new st0 N).1 v M).2.poolAt
          st0.nextPool = ⟨N, []⟩ := by
        show ((allocN (Pool.new st0 N).2 (Pool.new st0 N).1 v M).2.pools)
          st0.nextPool = _
        rw [a2]
        exact hpool1
      have hres := dropList_min st0.nextPool N (some v)
        (allocN (Pool.new st0 N).2 (Pool.new st0 N).1 v M).1
        (allocN (Pool.new st0 N).2 (Pool.new st0 N).1 v M).2 [] hlive hnd hpoolA
        (Nat.zero_le N) (fun b _ => List.not_mem_nil b)
      have hlen : (allocN (Pool.new st0 N).2 (Pool.new st0 N).1 v M).1.length = M := by
        rw [a1]
        exact length_addrRange M _
      have hgoal : Pool.getPoolSize
          (dropList (allocN (Pool.new st0 N).2 (Pool.new st0 N).1 v M).2
            (allocN (Pool.new st0 N).2 (Pool.new st0 N).1 v M).1)
          (Pool.new st0 N).1 =
          Pool.getPoolSize
          (dropList (allocN (Pool.new st0 N).2 (Pool.new st0 N).1 v M).2
            (allocN (Pool.new st0 N).2 (Pool.new st0 N).1 v M).1)
          (some st0.nextPool) := by
        rw [hp1]
      rw [hgoal]
      show ((dropList (allocN (Pool.new st0 N).2 (Pool.new st0 N).1 v M).2
        (allocN (Pool.new st0 N).2 (Pool.new st0 N).1 v M).1).poolAt
        st0.nextPool).freeList.length = min N M
      rw [hres.2, hlen]
      simp

/-- Witness for `capacity_conservation`: the empty machine satisfies the
invariant and is reachable from itself, and the fill-then-release
scenario at capacity 1 with 2 allocations leaves pool size
`min 1 2 = 1`. -/
theorem capacity_conservation_witness :
    SizeInv (Sys.init Nat) ∧
    Pool.getPoolSize (Sys.init Nat) (some 0) ≤
      Pool.getMaxSize (Sys.init Nat) (some 0) ∧
    Pool.getPoolSize
      (dropList (allocN (Pool.new (Sys.init Nat) 1).2 (Pool.new (Sys.init Nat) 1).1 5 2).2
        (allocN (Pool.new (Sys.init Nat) 1).2 (Pool.new (Sys.init Nat) 1).1 5 2).1)
      (Pool.new (Sys.init Nat) 1).1 = min 1 2 :=
  ⟨fun _ => Nat.le_refl 0,
   (capacity_conservation (A := Nat)).1 (Sys.init Nat) (Sys.init Nat)
     (fun _ => Nat.le_refl 0) (Reachable.refl _) (some 0),
   (capacity_conservation (A := Nat)).2.2 (Sys.init Nat) 1 2 5⟩

end Refpool
